import Mathlib

/-!
Verification of the pyGAPS isotherm model-fitting and enthalpy-derivation core.

This file gives a shallow embedding, over the real numbers, of the adsorption
model variants TSToth (triple-site Toth), FHVST (Flory-Huggins vacancy solution
theory) and WVST (Wilson vacancy solution theory), together with the Whittaker
isosteric-enthalpy derivation that consumes a fitted Langmuir or Toth model.

Conventions of the embedding:
- pure float expressions become functions over the reals;
- the scipy root finder used by the numerically-inverted operations is an
  abstract parameter of type RootFinder, so theorems quantify over its possible
  behaviours and state contracts such as convergence or bounded residuals;
- raised Python exceptions become Except values of type PyError;
- the few places where numpy produces a non-finite float (inf or nan) are
  modelled by the explicit value type NF, whose arithmetic follows the
  IEEE-754 rules numpy float64 uses, with finite zeros read as positive zero,
  which is the zero produced by the subtractions 1.0 - 1.0 occurring here.
-/

namespace PyGAPS

noncomputable section

/-- Python exception values raised by the modelling and characterisation code.
The calculationError constructor carries the offending numeric value that the
source interpolates into the message text. -/
inductive PyError where
  | parameterError
  | calculationError (failedValue : ℝ)
  | typeError

/-- Result record of scipy.optimize.root: the returned iterate and the
convergence flag. -/
structure RootResult where
  x : ℝ
  success : Bool

/-- Abstract stand-in for scipy.optimize.root(fun, seed, method = hybr):
a function from the residual function and the seed to a root result. -/
def RootFinder := (ℝ → ℝ) → ℝ → RootResult

/-- Value returned by a spreading_pressure method: either a numeric value or
the NotImplementedError class object that the VST variants return. -/
inductive SpreadingResult where
  | value (v : ℝ)
  | notImplementedError

/-- Whether a SpreadingResult is a numeric value. -/
def SpreadingResult.isValue : SpreadingResult → Bool
  | .value _ => true
  | .notImplementedError => false

/-- A numpy float64 value: finite real, positive or negative infinity, or NaN.
Finite zeros are treated as positive zero, matching the sign of the zeros
produced by the subtractions appearing in the embedded code. -/
inductive NF where
  | num (v : ℝ)
  | inf
  | neginf
  | nan

/-- IEEE addition on NF values. -/
def NF.add : NF → NF → NF
  | num a, num b => num (a + b)
  | num _, inf => inf
  | num _, neginf => neginf
  | inf, num _ => inf
  | neginf, num _ => neginf
  | inf, inf => inf
  | neginf, neginf => neginf
  | inf, neginf => nan
  | neginf, inf => nan
  | _, _ => nan

/-- IEEE negation on NF values. -/
def NF.neg : NF → NF
  | num a => num (-a)
  | inf => neginf
  | neginf => inf
  | nan => nan

/-- IEEE subtraction on NF values. -/
def NF.sub (a b : NF) : NF := NF.add a (NF.neg b)

/-- IEEE multiplication on NF values. -/
def NF.mul : NF → NF → NF
  | num a, num b => num (a * b)
  | num a, inf => if 0 < a then inf else if a < 0 then neginf else nan
  | num a, neginf => if 0 < a then neginf else if a < 0 then inf else nan
  | inf, num b => if 0 < b then inf else if b < 0 then neginf else nan
  | neginf, num b => if 0 < b then neginf else if b < 0 then inf else nan
  | inf, inf => inf
  | neginf, neginf => inf
  | inf, neginf => neginf
  | neginf, inf => neginf
  | _, _ => nan

/-- IEEE division on NF values, with finite zeros read as positive zero, so a
positive quantity divided by zero is positive infinity and zero divided by
zero is NaN. -/
def NF.div : NF → NF → NF
  | num a, num b =>
      if b = 0 then (if 0 < a then inf else if a < 0 then neginf else nan)
      else num (a / b)
  | num _, inf => num 0
  | num _, neginf => num 0
  | inf, num b => if 0 ≤ b then inf else neginf
  | neginf, num b => if 0 ≤ b then neginf else inf
  | _, _ => nan

/-- IEEE exponential on NF values. -/
def NF.exp : NF → NF
  | num v => num (Real.exp v)
  | inf => inf
  | neginf => num 0
  | nan => nan

/-- Comparison of an NF value against a finite float: strictly below.
Comparisons against NaN are false. -/
def NF.ltR : NF → ℝ → Bool
  | num v, x => decide (v < x)
  | neginf, _ => true
  | _, _ => false

/-- Comparison of an NF value against a finite float: strictly above.
Comparisons against NaN are false. -/
def NF.gtR : NF → ℝ → Bool
  | num v, x => decide (x < v)
  | inf, _ => true
  | _, _ => false

/-- np.isnan on an NF value. -/
def NF.isnan : NF → Bool
  | nan => true
  | _ => false

/-- Fitted parameters of the triple-site Toth model TSToth:
three site capacities, affinities and heterogeneity exponents. -/
structure TSTothParams where
  n_m1 : ℝ
  K1 : ℝ
  t1 : ℝ
  n_m2 : ℝ
  K2 : ℝ
  t2 : ℝ
  n_m3 : ℝ
  K3 : ℝ
  t3 : ℝ

/-- TSToth.loading: closed-form loading at a given pressure, the sum of three
single-site Toth terms. -/
def TSToth.loading (ps : TSTothParams) (pressure : ℝ) : ℝ :=
  let K1p := ps.K1 * pressure
  let K2p := ps.K2 * pressure
  let K3p := ps.K3 * pressure
  (ps.n_m1 * K1p / (1 + K1p ^ ps.t1) ^ (1 / ps.t1)) +
  (ps.n_m2 * K2p / (1 + K2p ^ ps.t2) ^ (1 / ps.t2)) +
  (ps.n_m3 * K3p / (1 + K3p ^ ps.t3) ^ (1 / ps.t3))

/-- TSToth.pressure: numerically-inverted pressure at a given loading, by
root finding on the residual of TSToth.loading, seeded at zero; raises
CalculationError carrying the requested loading when the finder does not
converge. -/
def TSToth.pressure (root : RootFinder) (ps : TSTothParams) (loading : ℝ) :
    Except PyError ℝ :=
  let fn := fun x => TSToth.loading ps x - loading
  let opt_res := root fn 0
  if opt_res.success then .ok opt_res.x
  else .error (.calculationError loading)

/-- Fitted parameters of the Flory-Huggins VST model FHVST. -/
structure FHVSTParams where
  n_m : ℝ
  K : ℝ
  a1v : ℝ

/-- FHVST.pressure: closed-form pressure at a given loading. -/
def FHVST.pressure (ps : FHVSTParams) (loading : ℝ) : ℝ :=
  let cov := loading / ps.n_m
  (ps.n_m / ps.K) * (cov / (1 - cov)) *
    Real.exp (ps.a1v ^ 2 * cov / (1 + ps.a1v * cov))

/-- FHVST.loading: numerically-inverted loading at a given pressure, by root
finding on the residual of FHVST.pressure, seeded at zero; raises
CalculationError carrying the requested pressure when the finder does not
converge. -/
def FHVST.loading (root : RootFinder) (ps : FHVSTParams) (pressure : ℝ) :
    Except PyError ℝ :=
  let fn := fun x => FHVST.pressure ps x - pressure
  let opt_res := root fn 0
  if opt_res.success then .ok opt_res.x
  else .error (.calculationError pressure)

/-- FHVST.spreading_pressure: the source returns the NotImplementedError class
object instead of computing the Gibbs integral. -/
def FHVST.spreading_pressure (_pressure : ℝ) : SpreadingResult :=
  SpreadingResult.notImplementedError

/-- FHVST.pressure evaluated in numpy float64 semantics, mirroring the same
expression tree over NF values; the float power a1v ** 2 is the product of
a1v with itself. -/
def FHVST.pressureNF (ps : FHVSTParams) (loading : ℝ) : NF :=
  let nm := NF.num ps.n_m
  let K := NF.num ps.K
  let a1v := NF.num ps.a1v
  let cov := NF.div (NF.num loading) nm
  NF.mul
    (NF.mul (NF.div nm K) (NF.div cov (NF.sub (NF.num 1) cov)))
    (NF.exp (NF.div (NF.mul (NF.mul a1v a1v) cov)
      (NF.add (NF.num 1) (NF.mul a1v cov))))

/-- Fitted parameters of the Wilson VST model WVST. -/
structure WVSTParams where
  n_m : ℝ
  K : ℝ
  L1v : ℝ
  Lv1 : ℝ

/-- WVST.pressure: closed-form pressure at a given loading. -/
def WVST.pressure (ps : WVSTParams) (loading : ℝ) : ℝ :=
  let cov := loading / ps.n_m
  let covX1minLv1 := (1 - ps.Lv1) * cov
  let covX1minL1v := (1 - ps.L1v) * cov
  let coef := ps.L1v * (1 - covX1minLv1) / (ps.L1v + covX1minL1v)
  let expcoef := -(ps.Lv1 * covX1minLv1 / (1 - covX1minLv1)) -
    covX1minL1v / (ps.L1v + covX1minL1v)
  (ps.n_m / ps.K * cov / (1 - cov)) * coef * Real.exp expcoef

/-- WVST.loading: numerically-inverted loading at a given pressure, by root
finding on the residual of WVST.pressure, seeded at zero; raises
CalculationError carrying the requested pressure when the finder does not
converge. -/
def WVST.loading (root : RootFinder) (ps : WVSTParams) (pressure : ℝ) :
    Except PyError ℝ :=
  let fn := fun x => WVST.pressure ps x - pressure
  let opt_res := root fn 0
  if opt_res.success then .ok opt_res.x
  else .error (.calculationError pressure)

/-- WVST.spreading_pressure: the source returns the NotImplementedError class
object instead of computing the Gibbs integral. -/
def WVST.spreading_pressure (_pressure : ℝ) : SpreadingResult :=
  SpreadingResult.notImplementedError

/-- WVST.pressure evaluated in numpy float64 semantics, mirroring the same
expression tree over NF values. -/
def WVST.pressureNF (ps : WVSTParams) (loading : ℝ) : NF :=
  let n_m := NF.num ps.n_m
  let K := NF.num ps.K
  let L1v := NF.num ps.L1v
  let Lv1 := NF.num ps.Lv1
  let cov := NF.div (NF.num loading) n_m
  let covX1minLv1 := NF.mul (NF.sub (NF.num 1) Lv1) cov
  let covX1minL1v := NF.mul (NF.sub (NF.num 1) L1v) cov
  let coef := NF.div (NF.mul L1v (NF.sub (NF.num 1) covX1minLv1))
    (NF.add L1v covX1minL1v)
  let expcoef := NF.sub
    (NF.neg (NF.div (NF.mul Lv1 covX1minLv1) (NF.sub (NF.num 1) covX1minLv1)))
    (NF.div covX1minL1v (NF.add L1v covX1minL1v))
  NF.mul
    (NF.mul (NF.div (NF.mul (NF.div n_m K) cov) (NF.sub (NF.num 1) cov)) coef)
    (NF.exp expcoef)

/-- Modelled from the spec: the single-site Toth loading formula
n_m K p / (1 + (K p) ^ t) ^ (1 / t); the Toth model implementation itself is
not under src, only its triple-site extension, so the reduction target of the
degeneracy property is taken from the formula quoted in the specification. -/
def toth_loading (n_m K t p : ℝ) : ℝ :=
  n_m * (K * p) / (1 + (K * p) ^ t) ^ (1 / t)

/-- The molar gas constant, the value of scipy.constants.R in SI units. -/
def R_gas : ℝ := 8.31446261815324

/-- The adsorbate thermodynamic callback set consumed by the enthalpy
derivation. saturation_pressure may fail with CalculationError at
supercritical temperature. -/
structure Adsorbate where
  p_critical : ℝ
  p_triple : ℝ
  t_critical : ℝ
  saturation_pressure : ℝ → Except PyError ℝ
  enthalpy_vaporisation : ℝ → ℝ

/-- The fitted model record of a model isotherm: the model name and the
parameters the Whittaker derivation reads (monolayer capacity n_m, affinity K
and, for Toth, the exponent t). -/
structure IsoModel where
  name : String
  n_m : ℝ
  K : ℝ
  t : ℝ

/-- A model isotherm as consumed by the enthalpy derivation: fitted model,
temperature, adsorbate callbacks, and the unit-aware equilibrium pressure
lookup, which may produce a non-finite float. -/
structure ModelIsotherm where
  model : IsoModel
  temperature : ℝ
  adsorbate : Adsorbate
  pressure_at : ℝ → NF

/-- Result record of enthalpy_sorption_whittaker: the retained loadings, their
enthalpies, and whether the pseudo-saturation-pressure warning was logged. -/
structure WhittakerResult where
  loading : List ℝ
  enthalpy_sorption : List ℝ
  warned : Bool

/-- The try/except block around the saturation-pressure lookup: a
CalculationError from the callback is caught, a warning is logged, and the
pseudo saturation pressure p_c (T / T_c) ^ 2 is substituted; any other error
propagates. The Bool records whether the warning was emitted. -/
def whittakerPSat (iso : ModelIsotherm) : Except PyError (ℝ × Bool) :=
  match iso.adsorbate.saturation_pressure iso.temperature with
  | .ok v => .ok (v, false)
  | .error (.calculationError _) =>
      .ok (iso.adsorbate.p_critical *
        (iso.temperature / iso.adsorbate.t_critical) ^ (2 : ℕ), true)
  | .error e => .error e

/-- The enthalpy formula shared by both Whittaker implementations: the value
h_st = d_lambda + lambda_p + RT at loading n and equilibrium pressure p,
given the resolved saturation pressure p_sat0 in Pa. -/
def whittakerHst (iso : ModelIsotherm) (p_sat0 n p : ℝ) : ℝ :=
  let RT := R_gas * iso.temperature
  let t := if iso.model.name = "Langmuir" then (1 : ℝ) else iso.model.t
  let b := 1 / iso.model.K ^ t
  let p_sat := p_sat0 / 1000
  let first_bracket := p_sat / b ^ (1 / t)
  let lambda_p := iso.adsorbate.enthalpy_vaporisation p * 1000
  let theta := n / iso.model.n_m
  let theta_t := theta ^ t
  let second_bracket := (theta_t / (1 - theta_t)) ^ ((t - 1) / t)
  let d_lambda := RT * Real.log (first_bracket * second_bracket)
  d_lambda + lambda_p + RT

/-- One iteration of the loop of enthalpy_sorption_whittaker: look up the
equilibrium pressure of the requested loading, clamp it to the triple pressure
from below, discard the point when it exceeds the critical pressure or is NaN,
and otherwise return the retained loading with its enthalpy in kJ/mol.
The final catch-all arm is unreachable: a clamped pressure that passes the
discard test is always finite. -/
def whittakerStepOf (iso : ModelIsotherm) (p_sat0 : ℝ) (n : ℝ) :
    Option (ℝ × ℝ) :=
  let p0 := iso.pressure_at n
  let p1 := if NF.ltR p0 iso.adsorbate.p_triple
    then NF.num iso.adsorbate.p_triple else p0
  if NF.gtR p1 iso.adsorbate.p_critical || NF.isnan p1 then none
  else
    match p1 with
    | NF.num p => some (n, whittakerHst iso p_sat0 n p / 1000)
    | _ => none

/-- The accumulation loop of enthalpy_sorption_whittaker: the per-point step
applied along the requested loadings, appending retained loadings and their
enthalpies to two parallel lists. -/
def whittakerLoop (step : ℝ → Option (ℝ × ℝ)) : List ℝ → List ℝ × List ℝ
  | [] => ([], [])
  | n :: ns =>
      let rest := whittakerLoop step ns
      match step n with
      | some (l, h) => (l :: rest.1, h :: rest.2)
      | none => rest

/-- enthalpy_sorption_whittaker: the current Whittaker isosteric-enthalpy
derivation. Fails with ParameterError unless the fitted model is Langmuir or
Toth, resolves the saturation pressure through the try/except fallback, and
folds the per-point step over the requested loadings. -/
def enthalpy_sorption_whittaker (iso : ModelIsotherm) (loadings : List ℝ) :
    Except PyError WhittakerResult :=
  if iso.model.name = "Langmuir" ∨ iso.model.name = "Toth" then
    match whittakerPSat iso with
    | .error e => .error e
    | .ok (p_sat, warned) =>
        let res := whittakerLoop (whittakerStepOf iso p_sat) loadings
        .ok ⟨res.1, res.2, warned⟩
  else .error .parameterError

/-- A dynamically-typed Python value: a float or a list, enough to express the
final statement of the legacy whittaker_enthalpy, which divides a Python list
by an integer. -/
inductive PyVal where
  | float (v : ℝ)
  | pylist (xs : List PyVal)

/-- Python division of a value by a number: defined on floats, a TypeError on
lists. -/
def pyDivScalar : PyVal → ℝ → Except PyError PyVal
  | .float a, b => .ok (.float (a / b))
  | .pylist _, _ => .error PyError.typeError

/-- One iteration of the loop of the legacy whittaker_enthalpy: the point is
discarded when its pressure exceeds the critical pressure, lies below the
triple pressure, or is NaN; no clamping is performed, and the appended
enthalpy is in J/mol, not yet divided by 1000. -/
def whittakerLegacyStep (iso : ModelIsotherm) (p_sat0 : ℝ) (n : ℝ) (p : NF) :
    Option (ℝ × ℝ) :=
  if NF.gtR p iso.adsorbate.p_critical || NF.ltR p iso.adsorbate.p_triple ||
      NF.isnan p then none
  else
    match p with
    | NF.num pv => some (n, whittakerHst iso p_sat0 n pv)
    | _ => none

/-- The zip loop of the legacy whittaker_enthalpy over the loadings and their
precomputed pressures. -/
def whittakerLoopZip (step : ℝ → NF → Option (ℝ × ℝ)) :
    List ℝ → List NF → List ℝ × List ℝ
  | n :: ns, p :: ps =>
      let rest := whittakerLoopZip step ns ps
      match step n p with
      | some (l, h) => (l :: rest.1, h :: rest.2)
      | none => rest
  | _, _ => ([], [])

/-- whittaker_enthalpy: the legacy Whittaker derivation. After the loop it
evaluates the division of the Python list whittaker_enth by 1000, which is a
TypeError. -/
def whittaker_enthalpy (iso : ModelIsotherm) (loadings : List ℝ) :
    Except PyError (List ℝ × PyVal) :=
  if iso.model.name = "Langmuir" ∨ iso.model.name = "Toth" then
    match whittakerPSat iso with
    | .error e => .error e
    | .ok (p_sat, _) =>
        let pressures := loadings.map iso.pressure_at
        let res := whittakerLoopZip (whittakerLegacyStep iso p_sat) loadings
          pressures
        match pyDivScalar (PyVal.pylist (res.2.map PyVal.float)) 1000 with
        | .error e => .error e
        | .ok v => .ok (res.1, v)
  else .error .parameterError

/-- A root finder that reports success exactly when the seed already is an
exact root, in which case it returns the seed. Vacuously satisfies the exact
solver contract: on success the returned iterate is an exact root. -/
def exactRoot : RootFinder := fun f x0 => ⟨x0, decide (f x0 = 0)⟩

/-- A root finder that always reports failure. -/
def failRoot : RootFinder := fun _ _ => ⟨0, false⟩

/-- A concrete isotherm whose model name is Sips, used to witness the
ParameterError path. -/
def isoSips : ModelIsotherm :=
  ⟨⟨"Sips", 1, 1, 1⟩, 300, ⟨100, 1, 50, fun _ => .ok 10, fun _ => 20⟩,
    fun _ => NF.num 5⟩

/-- A concrete Toth isotherm whose saturation-pressure callback fails with
CalculationError, used to witness the pseudo-saturation fallback. -/
def isoSuper : ModelIsotherm :=
  ⟨⟨"Toth", 1, 1, 1⟩, 300, ⟨100, 1, 50, fun _ => .error (.calculationError 0),
    fun _ => 20⟩, fun _ => NF.num 5⟩

/-- A concrete Langmuir isotherm with a well-behaved saturation-pressure
callback, used to witness the per-point clamp and discard policy. -/
def isoPlain : ModelIsotherm :=
  ⟨⟨"Langmuir", 1, 1, 1⟩, 300, ⟨100, 1, 50, fun _ => .ok 10, fun _ => 20⟩,
    fun _ => NF.num 5⟩

end

/-- The retained-loading component of the accumulation loop is the filterMap
of the per-point step: each point is processed independently. -/
theorem whittakerLoop_fst (step : ℝ → Option (ℝ × ℝ)) (ls : List ℝ) :
    (whittakerLoop step ls).1 =
      ls.filterMap (fun n => (step n).map Prod.fst) := by
  induction ls with
  | nil => rfl
  | cons n ns ih =>
      simp only [whittakerLoop, List.filterMap_cons]
      cases h : step n with
      | none => simpa [h] using ih
      | some v => simp [h, ih]

/-- The enthalpy component of the accumulation loop is the filterMap of the
per-point step. -/
theorem whittakerLoop_snd (step : ℝ → Option (ℝ × ℝ)) (ls : List ℝ) :
    (whittakerLoop step ls).2 =
      ls.filterMap (fun n => (step n).map Prod.snd) := by
  induction ls with
  | nil => rfl
  | cons n ns ih =>
      simp only [whittakerLoop, List.filterMap_cons]
      cases h : step n with
      | none => simpa [h] using ih
      | some v => simp [h, ih]

/-- The two output lists of the accumulation loop have equal length. -/
theorem whittakerLoop_length_eq (step : ℝ → Option (ℝ × ℝ)) (ls : List ℝ) :
    (whittakerLoop step ls).1.length = (whittakerLoop step ls).2.length := by
  induction ls with
  | nil => rfl
  | cons n ns ih =>
      simp only [whittakerLoop]
      cases h : step n with
      | none => simpa [h] using ih
      | some v => simp [h, ih]

/-- The accumulation loop never returns more points than requested. -/
theorem whittakerLoop_length_le (step : ℝ → Option (ℝ × ℝ)) (ls : List ℝ) :
    (whittakerLoop step ls).1.length ≤ ls.length := by
  induction ls with
  | nil => exact le_refl 0
  | cons n ns ih =>
      simp only [whittakerLoop, List.length_cons]
      cases h : step n with
      | none => simp only [h]; omega
      | some v => simp only [h, List.length_cons]; omega

/-- Claim C1: for every model isotherm passing the Langmuir/Toth check and
every requested loading sequence, the Whittaker derivation treats the points
independently (both outputs are filterMaps of one per-point step), a point
whose equilibrium pressure is below the triple pressure is clamped to the
triple pressure and retained, a point whose pressure exceeds the critical
pressure or is NaN is discarded without failing the computation, and the two
output sequences are parallel and no longer than the input sequence. -/
theorem claim_C1 (iso : ModelIsotherm) (loadings : List ℝ) (p_sat : ℝ)
    (w : Bool)
    (hname : iso.model.name = "Langmuir" ∨ iso.model.name = "Toth")
    (hsat : whittakerPSat iso = .ok (p_sat, w))
    (htc : iso.adsorbate.p_triple ≤ iso.adsorbate.p_critical) :
    enthalpy_sorption_whittaker iso loadings =
      .ok ⟨(whittakerLoop (whittakerStepOf iso p_sat) loadings).1,
        (whittakerLoop (whittakerStepOf iso p_sat) loadings).2, w⟩ ∧
    (whittakerLoop (whittakerStepOf iso p_sat) loadings).1 =
      loadings.filterMap (fun n => (whittakerStepOf iso p_sat n).map
        Prod.fst) ∧
    (whittakerLoop (whittakerStepOf iso p_sat) loadings).2 =
      loadings.filterMap (fun n => (whittakerStepOf iso p_sat n).map
        Prod.snd) ∧
    (whittakerLoop (whittakerStepOf iso p_sat) loadings).1.length =
      (whittakerLoop (whittakerStepOf iso p_sat) loadings).2.length ∧
    (whittakerLoop (whittakerStepOf iso p_sat) loadings).1.length ≤
      loadings.length ∧
    (∀ n : ℝ, NF.ltR (iso.pressure_at n) iso.adsorbate.p_triple = true →
      whittakerStepOf iso p_sat n =
        some (n, whittakerHst iso p_sat n iso.adsorbate.p_triple / 1000)) ∧
    (∀ n : ℝ,
      (NF.gtR (iso.pressure_at n) iso.adsorbate.p_critical = true ∨
        NF.isnan (iso.pressure_at n) = true) →
      whittakerStepOf iso p_sat n = none) := by
  refine ⟨?_, whittakerLoop_fst _ _, whittakerLoop_snd _ _,
    whittakerLoop_length_eq _ _, whittakerLoop_length_le _ _, ?_, ?_⟩
  · simp only [enthalpy_sorption_whittaker, if_pos hname, hsat]
  · intro n h
    have hnot : ¬ (iso.adsorbate.p_critical < iso.adsorbate.p_triple) :=
      not_lt.mpr htc
    simp [whittakerStepOf, h, NF.gtR, NF.isnan, hnot]
  · intro n h
    rcases h with h | h
    · cases hp : iso.pressure_at n with
      | num v =>
          rw [hp] at h
          have hv : iso.adsorbate.p_critical < v := by
            simpa [NF.gtR] using h
          have hnlt : ¬ (v < iso.adsorbate.p_triple) :=
            not_lt.mpr (le_of_lt (lt_of_le_of_lt htc hv))
          simp [whittakerStepOf, hp, NF.ltR, hnlt, NF.gtR, hv, NF.isnan]
      | inf => simp [whittakerStepOf, hp, NF.ltR, NF.gtR]
      | neginf => rw [hp] at h; simp [NF.gtR] at h
      | nan => rw [hp] at h; simp [NF.gtR] at h
    · cases hp : iso.pressure_at n with
      | num v => rw [hp] at h; simp [NF.isnan] at h
      | inf => rw [hp] at h; simp [NF.isnan] at h
      | neginf => rw [hp] at h; simp [NF.isnan] at h
      | nan => simp [whittakerStepOf, hp, NF.ltR, NF.gtR, NF.isnan]

/-- Witness for C1 at a concrete Langmuir isotherm and loading list. -/
theorem claim_C1_witness :
    enthalpy_sorption_whittaker isoPlain [1, 2] =
      .ok ⟨(whittakerLoop (whittakerStepOf isoPlain 10) [1, 2]).1,
        (whittakerLoop (whittakerStepOf isoPlain 10) [1, 2]).2, false⟩ ∧
    (whittakerLoop (whittakerStepOf isoPlain 10) [1, 2]).1.length ≤ 2 :=
  ⟨(claim_C1 isoPlain [1, 2] 10 false (Or.inl rfl) rfl (by norm_num [isoPlain])).1,
    (claim_C1 isoPlain [1, 2] 10 false (Or.inl rfl) rfl (by norm_num [isoPlain])).2.2.2.2.1⟩

/-- Claim C2: when the saturation-pressure callback fails with
CalculationError at the isotherm temperature, the Whittaker derivation does
not propagate the error: it records the warning and completes normally using
the pseudo saturation pressure p_c (T / T_c) ^ 2. -/
theorem claim_C2 (iso : ModelIsotherm) (loadings : List ℝ) (v : ℝ)
    (hname : iso.model.name = "Langmuir" ∨ iso.model.name = "Toth")
    (hfail : iso.adsorbate.saturation_pressure iso.temperature =
      .error (.calculationError v)) :
    enthalpy_sorption_whittaker iso loadings =
      .ok ⟨(whittakerLoop (whittakerStepOf iso
          (iso.adsorbate.p_critical *
            (iso.temperature / iso.adsorbate.t_critical) ^ (2 : ℕ)))
          loadings).1,
        (whittakerLoop (whittakerStepOf iso
          (iso.adsorbate.p_critical *
            (iso.temperature / iso.adsorbate.t_critical) ^ (2 : ℕ)))
          loadings).2,
        true⟩ := by
  simp only [enthalpy_sorption_whittaker, if_pos hname, whittakerPSat, hfail]

/-- Witness for C2 at a concrete supercritical isotherm. -/
theorem claim_C2_witness :
    enthalpy_sorption_whittaker isoSuper [] = .ok ⟨[], [], true⟩ := by
  have h := claim_C2 isoSuper [] 0 (Or.inr rfl) rfl
  simpa [whittakerLoop] using h

/-- Claim C10: for every isotherm passing the Langmuir/Toth check whose
saturation-pressure lookup resolves, the legacy whittaker_enthalpy never
returns its result: the final division of the Python list whittaker_enth by
1000 is a TypeError, for every loading list including the empty one. -/
theorem claim_C10 (iso : ModelIsotherm) (loadings : List ℝ) (s : ℝ) (w : Bool)
    (hname : iso.model.name = "Langmuir" ∨ iso.model.name = "Toth")
    (hsat : whittakerPSat iso = .ok (s, w)) :
    whittaker_enthalpy iso loadings = .error PyError.typeError := by
  simp only [whittaker_enthalpy, if_pos hname, hsat, pyDivScalar]

/-- Witness for C10 at a concrete Langmuir isotherm with the empty loading
list. -/
theorem claim_C10_witness :
    whittaker_enthalpy isoPlain [] = .error PyError.typeError :=
  claim_C10 isoPlain [] 10 false (Or.inl rfl) rfl

/-- Claim C3: calling the Whittaker enthalpy derivation on a fitted model
isotherm whose model name is not Langmuir or Toth raises ParameterError, for
every such input, whatever the numeric fields and callbacks hold, hence
before any numeric computation can matter. -/
theorem claim_C3 (iso : ModelIsotherm) (loadings : List ℝ)
    (hname : ¬(iso.model.name = "Langmuir" ∨ iso.model.name = "Toth")) :
    enthalpy_sorption_whittaker iso loadings = .error .parameterError := by
  simp only [enthalpy_sorption_whittaker, if_neg hname]

/-- Witness for C3 at the model name Sips. -/
theorem claim_C3_witness :
    enthalpy_sorption_whittaker isoSips [1, 2] = .error .parameterError :=
  claim_C3 isoSips [1, 2] (by decide)

/-- Claim C9: for every pressure input, the spreading_pressure operation of
FHVST and WVST returns the not-implemented signal and not a numeric value. -/
theorem claim_C9 (p : ℝ) :
    FHVST.spreading_pressure p = SpreadingResult.notImplementedError ∧
    WVST.spreading_pressure p = SpreadingResult.notImplementedError ∧
    (FHVST.spreading_pressure p).isValue = false ∧
    (WVST.spreading_pressure p).isValue = false :=
  ⟨rfl, rfl, rfl, rfl⟩

/-- Claim C7: a TSToth instance whose second and third site capacities are
zero computes exactly the single-site Toth loading with the shared remaining
parameters, for every pressure. -/
theorem claim_C7 (ps : TSTothParams) (p : ℝ)
    (h2 : ps.n_m2 = 0) (h3 : ps.n_m3 = 0) :
    TSToth.loading ps p = toth_loading ps.n_m1 ps.K1 ps.t1 p := by
  simp [TSToth.loading, toth_loading, h2, h3]

/-- Witness for C7 at a concrete parameter set with zeroed sites two and
three. -/
theorem claim_C7_witness :
    TSToth.loading ⟨2, 3, 1, 0, 1, 1, 0, 1, 1⟩ 5 = toth_loading 2 3 1 5 :=
  claim_C7 ⟨2, 3, 1, 0, 1, 1, 0, 1, 1⟩ 5 rfl rfl

/-- Claim C4: each numerically-inverted operation (TSToth.pressure,
FHVST.loading, WVST.loading) consults the root finder only at the zero seed,
and when the finder reports non-convergence the operation fails with a
CalculationError carrying the offending input value; the error is the whole
result, never replaced by a default value. -/
theorem claim_C4 :
    (∀ (root : RootFinder) (ps : TSTothParams) (n : ℝ),
      ((root (fun x => TSToth.loading ps x - n) 0).success = false →
        TSToth.pressure root ps n = .error (.calculationError n)) ∧
      ((root (fun x => TSToth.loading ps x - n) 0).success = true →
        TSToth.pressure root ps n =
          .ok (root (fun x => TSToth.loading ps x - n) 0).x) ∧
      (∀ root' : RootFinder,
        root (fun x => TSToth.loading ps x - n) 0 =
          root' (fun x => TSToth.loading ps x - n) 0 →
        TSToth.pressure root ps n = TSToth.pressure root' ps n)) ∧
    (∀ (root : RootFinder) (ps : FHVSTParams) (p : ℝ),
      ((root (fun x => FHVST.pressure ps x - p) 0).success = false →
        FHVST.loading root ps p = .error (.calculationError p)) ∧
      ((root (fun x => FHVST.pressure ps x - p) 0).success = true →
        FHVST.loading root ps p =
          .ok (root (fun x => FHVST.pressure ps x - p) 0).x) ∧
      (∀ root' : RootFinder,
        root (fun x => FHVST.pressure ps x - p) 0 =
          root' (fun x => FHVST.pressure ps x - p) 0 →
        FHVST.loading root ps p = FHVST.loading root' ps p)) ∧
    (∀ (root : RootFinder) (ps : WVSTParams) (p : ℝ),
      ((root (fun x => WVST.pressure ps x - p) 0).success = false →
        WVST.loading root ps p = .error (.calculationError p)) ∧
      ((root (fun x => WVST.pressure ps x - p) 0).success = true →
        WVST.loading root ps p =
          .ok (root (fun x => WVST.pressure ps x - p) 0).x) ∧
      (∀ root' : RootFinder,
        root (fun x => WVST.pressure ps x - p) 0 =
          root' (fun x => WVST.pressure ps x - p) 0 →
        WVST.loading root ps p = WVST.loading root' ps p)) := by
  refine ⟨fun root ps n => ⟨fun h => ?_, fun h => ?_, fun root' h => ?_⟩,
    fun root ps p => ⟨fun h => ?_, fun h => ?_, fun root' h => ?_⟩,
    fun root ps p => ⟨fun h => ?_, fun h => ?_, fun root' h => ?_⟩⟩ <;>
    simp only [TSToth.pressure, FHVST.loading, WVST.loading, h] <;> simp

/-- Witness for C4: a finder that always reports failure yields the
CalculationError carrying the requested loading. -/
theorem claim_C4_witness :
    TSToth.pressure failRoot ⟨1, 1, 1, 1, 1, 1, 1, 1, 1⟩ 2 =
      .error (.calculationError 2) :=
  (claim_C4.1 failRoot ⟨1, 1, 1, 1, 1, 1, 1, 1, 1⟩ 2).1 rfl

/-- NF division of finite values with nonzero divisor. -/
theorem NF.div_num_num {a b : ℝ} (hb : b ≠ 0) :
    NF.div (NF.num a) (NF.num b) = NF.num (a / b) := by
  simp [NF.div, hb]

/-- NF division of a positive value by zero is positive infinity. -/
theorem NF.div_num_zero {a : ℝ} (ha : 0 < a) :
    NF.div (NF.num a) (NF.num 0) = NF.inf := by
  simp [NF.div, ha]

/-- NF multiplication of positive infinity by a positive finite value. -/
theorem NF.mul_inf_num {b : ℝ} (hb : 0 < b) :
    NF.mul NF.inf (NF.num b) = NF.inf := by
  simp [NF.mul, hb]

/-- NF multiplication of a positive finite value by positive infinity. -/
theorem NF.mul_num_inf {a : ℝ} (ha : 0 < a) :
    NF.mul (NF.num a) NF.inf = NF.inf := by
  simp [NF.mul, ha]

/-- Claim C8: evaluating the closed-form pressure of the VST variants at full
coverage (loading equal to n_m, where the formula divides by 1 - theta) in
numpy float64 semantics is defined, raising nothing: the division by zero
produces positive infinity, which propagates through the remaining products
to the caller, for physically valid positive parameters. -/
theorem claim_C8 (psF : FHVSTParams) (psW : WVSTParams)
    (h1 : 0 < psF.n_m) (h2 : 0 < psF.K) (h3 : 0 ≤ psF.a1v)
    (h4 : 0 < psW.n_m) (h5 : 0 < psW.K) (h6 : 0 < psW.L1v)
    (h7 : 0 < psW.Lv1) :
    FHVST.pressureNF psF psF.n_m = NF.inf ∧
    WVST.pressureNF psW psW.n_m = NF.inf := by
  constructor
  · have hne : psF.n_m ≠ 0 := ne_of_gt h1
    have hcov : NF.div (NF.num psF.n_m) (NF.num psF.n_m) = NF.num 1 := by
      rw [NF.div_num_num hne, div_self hne]
    simp only [FHVST.pressureNF, hcov]
    have hsub : NF.sub (NF.num 1) (NF.num 1) = NF.num 0 := by
      norm_num [NF.sub, NF.add, NF.neg]
    rw [hsub]
    have hdiv01 : NF.div (NF.num 1) (NF.num 0) = NF.inf := by
      norm_num [NF.div]
    rw [hdiv01, NF.div_num_num (ne_of_gt h2)]
    have hmA : NF.mul (NF.num psF.a1v) (NF.num psF.a1v) =
        NF.num (psF.a1v * psF.a1v) := rfl
    rw [hmA]
    have hmB : NF.mul (NF.num (psF.a1v * psF.a1v)) (NF.num 1) =
        NF.num (psF.a1v * psF.a1v * 1) := rfl
    rw [hmB]
    have hmC : NF.mul (NF.num psF.a1v) (NF.num 1) =
        NF.num (psF.a1v * 1) := rfl
    rw [hmC]
    have hadd : NF.add (NF.num 1) (NF.num (psF.a1v * 1)) =
        NF.num (1 + psF.a1v * 1) := rfl
    rw [hadd]
    have hden : (1 : ℝ) + psF.a1v * 1 ≠ 0 := by nlinarith
    rw [NF.div_num_num hden]
    have hexp : NF.exp (NF.num (psF.a1v * psF.a1v * 1 /
        (1 + psF.a1v * 1))) = NF.num (Real.exp (psF.a1v * psF.a1v * 1 /
        (1 + psF.a1v * 1))) := rfl
    rw [hexp, NF.mul_num_inf (div_pos h1 h2),
      NF.mul_inf_num (Real.exp_pos _)]
  · have hne : psW.n_m ≠ 0 := ne_of_gt h4
    have hcov : NF.div (NF.num psW.n_m) (NF.num psW.n_m) = NF.num 1 := by
      rw [NF.div_num_num hne, div_self hne]
    simp only [WVST.pressureNF, hcov]
    have hs1 : NF.sub (NF.num 1) (NF.num psW.Lv1) =
        NF.num (1 + -psW.Lv1) := rfl
    have hs2 : NF.sub (NF.num 1) (NF.num psW.L1v) =
        NF.num (1 + -psW.L1v) := rfl
    rw [hs1, hs2]
    have hm1 : NF.mul (NF.num (1 + -psW.Lv1)) (NF.num 1) =
        NF.num ((1 + -psW.Lv1) * 1) := rfl
    have hm2 : NF.mul (NF.num (1 + -psW.L1v)) (NF.num 1) =
        NF.num ((1 + -psW.L1v) * 1) := rfl
    rw [hm1, hm2]
    have hs3 : NF.sub (NF.num 1) (NF.num ((1 + -psW.Lv1) * 1)) =
        NF.num (1 + -((1 + -psW.Lv1) * 1)) := rfl
    rw [hs3]
    have hm3 : NF.mul (NF.num psW.L1v)
        (NF.num (1 + -((1 + -psW.Lv1) * 1))) =
        NF.num (psW.L1v * (1 + -((1 + -psW.Lv1) * 1))) := rfl
    rw [hm3]
    have ha1 : NF.add (NF.num psW.L1v) (NF.num ((1 + -psW.L1v) * 1)) =
        NF.num (psW.L1v + (1 + -psW.L1v) * 1) := rfl
    rw [ha1]
    have hden1 : psW.L1v + (1 + -psW.L1v) * 1 ≠ 0 := by
      have e : psW.L1v + (1 + -psW.L1v) * 1 = 1 := by ring
      rw [e]; norm_num
    rw [NF.div_num_num hden1]
    have hm4 : NF.mul (NF.num psW.Lv1) (NF.num ((1 + -psW.Lv1) * 1)) =
        NF.num (psW.Lv1 * ((1 + -psW.Lv1) * 1)) := rfl
    rw [hm4]
    have hden2 : (1 : ℝ) + -((1 + -psW.Lv1) * 1) ≠ 0 := by
      have e : (1 : ℝ) + -((1 + -psW.Lv1) * 1) = psW.Lv1 := by ring
      rw [e]; exact ne_of_gt h7
    rw [NF.div_num_num hden2]
    have hneg : NF.neg (NF.num (psW.Lv1 * ((1 + -psW.Lv1) * 1) /
        (1 + -((1 + -psW.Lv1) * 1)))) =
        NF.num (-(psW.Lv1 * ((1 + -psW.Lv1) * 1) /
        (1 + -((1 + -psW.Lv1) * 1)))) := rfl
    rw [hneg, NF.div_num_num hden1]
    have hs4 : NF.sub
        (NF.num (-(psW.Lv1 * ((1 + -psW.Lv1) * 1) /
          (1 + -((1 + -psW.Lv1) * 1)))))
        (NF.num ((1 + -psW.L1v) * 1 / (psW.L1v + (1 + -psW.L1v) * 1))) =
        NF.num (-(psW.Lv1 * ((1 + -psW.Lv1) * 1) /
          (1 + -((1 + -psW.Lv1) * 1))) +
          -((1 + -psW.L1v) * 1 / (psW.L1v + (1 + -psW.L1v) * 1))) := rfl
    rw [hs4]
    rw [NF.div_num_num (ne_of_gt h5)]
    have hm5 : NF.mul (NF.num (psW.n_m / psW.K)) (NF.num 1) =
        NF.num (psW.n_m / psW.K * 1) := rfl
    rw [hm5]
    have hs5 : NF.sub (NF.num 1) (NF.num 1) = NF.num 0 := by
      norm_num [NF.sub, NF.add, NF.neg]
    rw [hs5]
    have hpos1 : (0 : ℝ) < psW.n_m / psW.K * 1 := by
      rw [mul_one]; exact div_pos h4 h5
    rw [NF.div_num_zero hpos1]
    have hpos2 : (0 : ℝ) < psW.L1v * (1 + -((1 + -psW.Lv1) * 1)) /
        (psW.L1v + (1 + -psW.L1v) * 1) := by
      have e1 : (1 : ℝ) + -((1 + -psW.Lv1) * 1) = psW.Lv1 := by ring
      have e2 : psW.L1v + (1 + -psW.L1v) * 1 = 1 := by ring
      rw [e1, e2, div_one]
      exact mul_pos h6 h7
    rw [NF.mul_inf_num hpos2]
    have hexp : NF.exp (NF.num (-(psW.Lv1 * ((1 + -psW.Lv1) * 1) /
        (1 + -((1 + -psW.Lv1) * 1))) +
        -((1 + -psW.L1v) * 1 / (psW.L1v + (1 + -psW.L1v) * 1)))) =
        NF.num (Real.exp (-(psW.Lv1 * ((1 + -psW.Lv1) * 1) /
        (1 + -((1 + -psW.Lv1) * 1))) +
        -((1 + -psW.L1v) * 1 / (psW.L1v + (1 + -psW.L1v) * 1)))) := rfl
    rw [hexp, NF.mul_inf_num (Real.exp_pos _)]

/-- Witness for C8 at concrete positive parameters. -/
theorem claim_C8_witness :
    FHVST.pressureNF ⟨1, 1, 0⟩ 1 = NF.inf ∧
    WVST.pressureNF ⟨1, 1, 1, 1⟩ 1 = NF.inf :=
  claim_C8 ⟨1, 1, 0⟩ ⟨1, 1, 1, 1⟩ (by norm_num) (by norm_num) (by norm_num)
    (by norm_num) (by norm_num) (by norm_num) (by norm_num)

/-- The single-site Toth kernel u / (1 + u ^ t) ^ (1 / t) is nondecreasing on
the nonnegative reals, for positive exponent t. -/
theorem toth_core_le {t a b : ℝ} (ht : 0 < t) (ha : 0 ≤ a) (hab : a ≤ b) :
    a / (1 + a ^ t) ^ (1 / t) ≤ b / (1 + b ^ t) ^ (1 / t) := by
  have hb : 0 ≤ b := le_trans ha hab
  have hA : (0 : ℝ) < 1 + a ^ t := by
    have := Real.rpow_nonneg ha t; linarith
  have hB : (0 : ℝ) < 1 + b ^ t := by
    have := Real.rpow_nonneg hb t; linarith
  have hDA : (0 : ℝ) < (1 + a ^ t) ^ (1 / t) := Real.rpow_pos_of_pos hA _
  have hDB : (0 : ℝ) < (1 + b ^ t) ^ (1 / t) := Real.rpow_pos_of_pos hB _
  rw [div_le_div_iff hDA hDB]
  by_contra hcon
  push_neg at hcon
  have h1 : (0 : ℝ) ≤ b * (1 + a ^ t) ^ (1 / t) := mul_nonneg hb hDA.le
  have h2 := Real.rpow_lt_rpow h1 hcon ht
  rw [Real.mul_rpow hb hDA.le, Real.mul_rpow ha hDB.le,
    ← Real.rpow_mul hA.le, ← Real.rpow_mul hB.le,
    one_div_mul_cancel (ne_of_gt ht), Real.rpow_one, Real.rpow_one] at h2
  have h3 : a ^ t ≤ b ^ t := Real.rpow_le_rpow ha hab ht.le
  nlinarith [Real.rpow_nonneg ha t, Real.rpow_nonneg hb t]

/-- The single-site Toth kernel is strictly increasing on the nonnegative
reals, for positive exponent t. -/
theorem toth_core_lt {t a b : ℝ} (ht : 0 < t) (ha : 0 ≤ a) (hab : a < b) :
    a / (1 + a ^ t) ^ (1 / t) < b / (1 + b ^ t) ^ (1 / t) := by
  have hb : 0 ≤ b := le_trans ha hab.le
  have hA : (0 : ℝ) < 1 + a ^ t := by
    have := Real.rpow_nonneg ha t; linarith
  have hB : (0 : ℝ) < 1 + b ^ t := by
    have := Real.rpow_nonneg hb t; linarith
  have hDA : (0 : ℝ) < (1 + a ^ t) ^ (1 / t) := Real.rpow_pos_of_pos hA _
  have hDB : (0 : ℝ) < (1 + b ^ t) ^ (1 / t) := Real.rpow_pos_of_pos hB _
  rw [div_lt_div_iff hDA hDB]
  by_contra hcon
  push_neg at hcon
  have h1 : (0 : ℝ) ≤ b * (1 + a ^ t) ^ (1 / t) := mul_nonneg hb hDA.le
  have h2 := Real.rpow_le_rpow h1 hcon ht.le
  rw [Real.mul_rpow hb hDA.le, Real.mul_rpow ha hDB.le,
    ← Real.rpow_mul hA.le, ← Real.rpow_mul hB.le,
    one_div_mul_cancel (ne_of_gt ht), Real.rpow_one, Real.rpow_one] at h2
  have h3 : a ^ t < b ^ t := Real.rpow_lt_rpow ha hab ht
  nlinarith [Real.rpow_nonneg ha t, Real.rpow_nonneg hb t]

/-- One full Toth site term is nondecreasing in pressure for nonnegative
capacity and affinity and positive exponent. -/
theorem toth_site_le {n_m K t p q : ℝ} (hn : 0 ≤ n_m) (hK : 0 ≤ K)
    (ht : 0 < t) (hp : 0 ≤ p) (hpq : p ≤ q) :
    n_m * (K * p) / (1 + (K * p) ^ t) ^ (1 / t) ≤
    n_m * (K * q) / (1 + (K * q) ^ t) ^ (1 / t) := by
  have h := toth_core_le ht (mul_nonneg hK hp)
    (mul_le_mul_of_nonneg_left hpq hK)
  calc n_m * (K * p) / (1 + (K * p) ^ t) ^ (1 / t)
      = n_m * (K * p / (1 + (K * p) ^ t) ^ (1 / t)) := mul_div_assoc n_m _ _
    _ ≤ n_m * (K * q / (1 + (K * q) ^ t) ^ (1 / t)) :=
        mul_le_mul_of_nonneg_left h hn
    _ = n_m * (K * q) / (1 + (K * q) ^ t) ^ (1 / t) :=
        (mul_div_assoc n_m _ _).symm

/-- TSToth.loading is nondecreasing in pressure whenever every parameter sits
in its declared nonnegative bound region with positive exponents. -/
theorem TSToth.loading_le (ps : TSTothParams) (p q : ℝ)
    (h1 : 0 ≤ ps.n_m1) (h2 : 0 ≤ ps.K1) (h3 : 0 < ps.t1)
    (h4 : 0 ≤ ps.n_m2) (h5 : 0 ≤ ps.K2) (h6 : 0 < ps.t2)
    (h7 : 0 ≤ ps.n_m3) (h8 : 0 ≤ ps.K3) (h9 : 0 < ps.t3)
    (hp : 0 ≤ p) (hpq : p ≤ q) :
    TSToth.loading ps p ≤ TSToth.loading ps q := by
  simp only [TSToth.loading]
  have s1 := toth_site_le h1 h2 h3 hp hpq
  have s2 := toth_site_le h4 h5 h6 hp hpq
  have s3 := toth_site_le h7 h8 h9 hp hpq
  linarith

/-- TSToth.loading is strictly increasing on nonnegative pressures when the
first site has positive capacity, affinity and exponent and the other sites
sit in their nonnegative bound regions. -/
theorem TSToth.loading_strictMonoOn (ps : TSTothParams)
    (h1 : 0 < ps.n_m1) (h2 : 0 < ps.K1) (h3 : 0 < ps.t1)
    (h4 : 0 ≤ ps.n_m2) (h5 : 0 ≤ ps.K2) (h6 : 0 < ps.t2)
    (h7 : 0 ≤ ps.n_m3) (h8 : 0 ≤ ps.K3) (h9 : 0 < ps.t3) :
    StrictMonoOn (TSToth.loading ps) (Set.Ici 0) := by
  intro p hp q hq hpq
  rw [Set.mem_Ici] at hp hq
  simp only [TSToth.loading]
  have s1core := toth_core_lt h3 (mul_nonneg h2.le hp)
    (mul_lt_mul_of_pos_left hpq h2)
  have s1 : ps.n_m1 * (ps.K1 * p) / (1 + (ps.K1 * p) ^ ps.t1) ^ (1 / ps.t1) <
      ps.n_m1 * (ps.K1 * q) / (1 + (ps.K1 * q) ^ ps.t1) ^ (1 / ps.t1) := by
    calc ps.n_m1 * (ps.K1 * p) / (1 + (ps.K1 * p) ^ ps.t1) ^ (1 / ps.t1)
        = ps.n_m1 * (ps.K1 * p / (1 + (ps.K1 * p) ^ ps.t1) ^ (1 / ps.t1)) :=
          mul_div_assoc ps.n_m1 _ _
      _ < ps.n_m1 * (ps.K1 * q / (1 + (ps.K1 * q) ^ ps.t1) ^ (1 / ps.t1)) :=
          mul_lt_mul_of_pos_left s1core h1
      _ = ps.n_m1 * (ps.K1 * q) / (1 + (ps.K1 * q) ^ ps.t1) ^ (1 / ps.t1) :=
          (mul_div_assoc ps.n_m1 _ _).symm
  have s2 := toth_site_le h4 h5 h6 hp hpq.le
  have s3 := toth_site_le h7 h8 h9 hp hpq.le
  linarith

/-- TSToth.loading vanishes at zero pressure. -/
theorem TSToth.loading_zero (ps : TSTothParams) : TSToth.loading ps 0 = 0 := by
  simp [TSToth.loading]

/-- FHVST.pressure vanishes at zero loading. -/
theorem fhvst_pressure_zero (ps : FHVSTParams) : FHVST.pressure ps 0 = 0 := by
  simp [FHVST.pressure]

/-- FHVST.pressure is strictly increasing on the physical coverage range for
positive capacity and affinity and physically valid activity parameter
a1v above -1 (a1v equals a ratio of positive molar areas minus one). -/
theorem fhvst_pressure_strictMonoOn (ps : FHVSTParams)
    (hnm : 0 < ps.n_m) (hK : 0 < ps.K) (ha : -1 < ps.a1v) :
    StrictMonoOn (FHVST.pressure ps) (Set.Ico 0 ps.n_m) := by
  rintro x ⟨hx0, hx1⟩ y ⟨hy0, hy1⟩ hxy
  simp only [FHVST.pressure]
  have hc10 : 0 ≤ x / ps.n_m := div_nonneg hx0 hnm.le
  have hc12 : x / ps.n_m < y / ps.n_m := by gcongr
  have hc21 : y / ps.n_m < 1 := (div_lt_one hnm).mpr hy1
  have hc11 : x / ps.n_m < 1 := lt_trans hc12 hc21
  set c1 := x / ps.n_m
  set c2 := y / ps.n_m
  have hd1 : (0 : ℝ) < 1 - c1 := by linarith
  have hd2 : (0 : ℝ) < 1 - c2 := by linarith
  have he1 : (0 : ℝ) < 1 + ps.a1v * c1 := by nlinarith
  have he2 : (0 : ℝ) < 1 + ps.a1v * c2 := by nlinarith
  have hF : c1 / (1 - c1) < c2 / (1 - c2) := by
    rw [div_lt_div_iff hd1 hd2]; nlinarith
  have hEarg : ps.a1v ^ 2 * c1 / (1 + ps.a1v * c1) ≤
      ps.a1v ^ 2 * c2 / (1 + ps.a1v * c2) := by
    rw [div_le_div_iff he1 he2]
    nlinarith [mul_nonneg (sq_nonneg ps.a1v) (sub_nonneg.mpr hc12.le)]
  have hE := Real.exp_le_exp.mpr hEarg
  have hC : (0 : ℝ) < ps.n_m / ps.K := div_pos hnm hK
  have hF1 : (0 : ℝ) ≤ c1 / (1 - c1) := div_nonneg hc10 hd1.le
  calc ps.n_m / ps.K * (c1 / (1 - c1)) *
        Real.exp (ps.a1v ^ 2 * c1 / (1 + ps.a1v * c1))
      ≤ ps.n_m / ps.K * (c1 / (1 - c1)) *
        Real.exp (ps.a1v ^ 2 * c2 / (1 + ps.a1v * c2)) :=
        mul_le_mul_of_nonneg_left hE (mul_nonneg hC.le hF1)
    _ < ps.n_m / ps.K * (c2 / (1 - c2)) *
        Real.exp (ps.a1v ^ 2 * c2 / (1 + ps.a1v * c2)) :=
        mul_lt_mul_of_pos_right (mul_lt_mul_of_pos_left hF hC)
          (Real.exp_pos _)

/-- The exponential bound (1 - x) e ^ x ≤ 1, the workhorse of the Wilson
factor monotonicity proofs. -/
theorem one_sub_mul_exp_le (x : ℝ) : (1 - x) * Real.exp x ≤ 1 := by
  have h := Real.add_one_le_exp (-x)
  have h2 := mul_le_mul_of_nonneg_right h (Real.exp_pos x).le
  rw [← Real.exp_add] at h2
  simp only [neg_add_cancel, Real.exp_zero] at h2
  have e : (1 - x) * Real.exp x = (-x + 1) * Real.exp x := by ring
  rw [e]
  exact h2

/-- The vacancy-side Wilson factor A / (1 - theta) times
exp(-(Lv1 (1 - Lv1) theta / A)), with A = 1 - (1 - Lv1) theta, is strictly
increasing in theta on the coverage interval for positive Lv1. -/
theorem wvst_f1_strict {Lv1 θ1 θ2 : ℝ} (hL : 0 < Lv1) (h0 : 0 ≤ θ1)
    (h12 : θ1 < θ2) (h21 : θ2 < 1) :
    (1 - (1 - Lv1) * θ1) / (1 - θ1) *
      Real.exp (-(Lv1 * ((1 - Lv1) * θ1) / (1 - (1 - Lv1) * θ1))) <
    (1 - (1 - Lv1) * θ2) / (1 - θ2) *
      Real.exp (-(Lv1 * ((1 - Lv1) * θ2) / (1 - (1 - Lv1) * θ2))) := by
  have hφ1 : (0 : ℝ) < 1 - θ1 := by linarith
  have hφ2 : (0 : ℝ) < 1 - θ2 := by linarith
  have hA1 : (0 : ℝ) < 1 - (1 - Lv1) * θ1 := by nlinarith
  have hA2 : (0 : ℝ) < 1 - (1 - Lv1) * θ2 := by nlinarith
  have hA1ne : (1 : ℝ) - (1 - Lv1) * θ1 ≠ 0 := ne_of_gt hA1
  have hA2ne : (1 : ℝ) - (1 - Lv1) * θ2 ≠ 0 := ne_of_gt hA2
  set A1 := 1 - (1 - Lv1) * θ1 with hA1def
  set A2 := 1 - (1 - Lv1) * θ2 with hA2def
  set x := Lv1 * ((1 - Lv1) * θ2) / A2 - Lv1 * ((1 - Lv1) * θ1) / A1
    with hxdef
  have hsplit : Real.exp (-(Lv1 * ((1 - Lv1) * θ1) / A1)) =
      Real.exp x * Real.exp (-(Lv1 * ((1 - Lv1) * θ2) / A2)) := by
    rw [← Real.exp_add]
    congr 1
    rw [hxdef]; ring
  rw [hsplit]
  have hkey : A1 * (1 - θ2) < A2 * (1 - θ1) * (1 - x) := by
    have hid : A2 * (1 - θ1) * (1 - x) - A1 * (1 - θ2) =
        Lv1 ^ 2 * (θ2 - θ1) / A1 := by
      rw [hxdef, hA1def, hA2def]
      field_simp
      ring
    have hpos : (0 : ℝ) < Lv1 ^ 2 * (θ2 - θ1) / A1 :=
      div_pos (mul_pos (pow_pos hL 2) (sub_pos.mpr h12)) hA1
    have h3 : (0 : ℝ) < A2 * (1 - θ1) * (1 - x) - A1 * (1 - θ2) := by
      rw [hid]; exact hpos
    exact sub_pos.mp h3
  have hmain : A1 / (1 - θ1) * Real.exp x < A2 / (1 - θ2) := by
    rw [div_mul_eq_mul_div, div_lt_div_iff hφ1 hφ2]
    calc A1 * Real.exp x * (1 - θ2)
        = A1 * (1 - θ2) * Real.exp x := by ring
      _ < A2 * (1 - θ1) * (1 - x) * Real.exp x :=
          mul_lt_mul_of_pos_right hkey (Real.exp_pos x)
      _ = A2 * (1 - θ1) * ((1 - x) * Real.exp x) := by ring
      _ ≤ A2 * (1 - θ1) * 1 :=
          mul_le_mul_of_nonneg_left (one_sub_mul_exp_le x)
            (mul_pos hA2 hφ1).le
      _ = A2 * (1 - θ1) := mul_one _
  calc A1 / (1 - θ1) *
        (Real.exp x * Real.exp (-(Lv1 * ((1 - Lv1) * θ2) / A2)))
      = A1 / (1 - θ1) * Real.exp x *
        Real.exp (-(Lv1 * ((1 - Lv1) * θ2) / A2)) := by ring
    _ < A2 / (1 - θ2) * Real.exp (-(Lv1 * ((1 - Lv1) * θ2) / A2)) :=
        mul_lt_mul_of_pos_right hmain (Real.exp_pos _)

/-- The adsorbate-side Wilson factor theta / B times exp(-((1 - L1v) theta /
B)), with B = L1v + (1 - L1v) theta, is strictly increasing in theta on the
coverage interval for positive L1v. -/
theorem wvst_f2_strict {L1v θ1 θ2 : ℝ} (hL : 0 < L1v) (h0 : 0 ≤ θ1)
    (h12 : θ1 < θ2) (h21 : θ2 < 1) :
    θ1 / (L1v + (1 - L1v) * θ1) *
      Real.exp (-((1 - L1v) * θ1 / (L1v + (1 - L1v) * θ1))) <
    θ2 / (L1v + (1 - L1v) * θ2) *
      Real.exp (-((1 - L1v) * θ2 / (L1v + (1 - L1v) * θ2))) := by
  have hθ2 : (0 : ℝ) < θ2 := lt_of_le_of_lt h0 h12
  have hθ11 : θ1 < 1 := lt_trans h12 h21
  have hB1 : (0 : ℝ) < L1v + (1 - L1v) * θ1 := by nlinarith
  have hB2 : (0 : ℝ) < L1v + (1 - L1v) * θ2 := by nlinarith
  have hB1ne : L1v + (1 - L1v) * θ1 ≠ 0 := ne_of_gt hB1
  have hB2ne : L1v + (1 - L1v) * θ2 ≠ 0 := ne_of_gt hB2
  set B1 := L1v + (1 - L1v) * θ1 with hB1def
  set B2 := L1v + (1 - L1v) * θ2 with hB2def
  set x := (1 - L1v) * θ2 / B2 - (1 - L1v) * θ1 / B1 with hxdef
  have hsplit : Real.exp (-((1 - L1v) * θ1 / B1)) =
      Real.exp x * Real.exp (-((1 - L1v) * θ2 / B2)) := by
    rw [← Real.exp_add]
    congr 1
    rw [hxdef]; ring
  rw [hsplit]
  have hkey : θ1 * B2 < θ2 * B1 * (1 - x) := by
    have hid : θ2 * B1 * (1 - x) - θ1 * B2 =
        L1v ^ 2 * (θ2 - θ1) / B2 := by
      rw [hxdef, hB1def, hB2def]
      field_simp
      ring
    have hpos : (0 : ℝ) < L1v ^ 2 * (θ2 - θ1) / B2 :=
      div_pos (mul_pos (pow_pos hL 2) (sub_pos.mpr h12)) hB2
    have h3 : (0 : ℝ) < θ2 * B1 * (1 - x) - θ1 * B2 := by
      rw [hid]; exact hpos
    exact sub_pos.mp h3
  have hmain : θ1 / B1 * Real.exp x < θ2 / B2 := by
    rw [div_mul_eq_mul_div, div_lt_div_iff hB1 hB2]
    calc θ1 * Real.exp x * B2 = θ1 * B2 * Real.exp x := by ring
      _ < θ2 * B1 * (1 - x) * Real.exp x :=
          mul_lt_mul_of_pos_right hkey (Real.exp_pos x)
      _ = θ2 * B1 * ((1 - x) * Real.exp x) := by ring
      _ ≤ θ2 * B1 * 1 :=
          mul_le_mul_of_nonneg_left (one_sub_mul_exp_le x)
            (mul_pos hθ2 hB1).le
      _ = θ2 * B1 := mul_one _
  calc θ1 / B1 * (Real.exp x * Real.exp (-((1 - L1v) * θ2 / B2)))
      = θ1 / B1 * Real.exp x * Real.exp (-((1 - L1v) * θ2 / B2)) := by ring
    _ < θ2 / B2 * Real.exp (-((1 - L1v) * θ2 / B2)) :=
        mul_lt_mul_of_pos_right hmain (Real.exp_pos _)

/-- WVST.pressure splits into the product of the two Wilson factors: the
grouping used by the monotonicity proof. -/
theorem WVST.pressure_factored (ps : WVSTParams) (x : ℝ) :
    WVST.pressure ps x =
      ps.n_m / ps.K * ps.L1v *
      ((1 - (1 - ps.Lv1) * (x / ps.n_m)) / (1 - x / ps.n_m) *
        Real.exp (-(ps.Lv1 * ((1 - ps.Lv1) * (x / ps.n_m)) /
          (1 - (1 - ps.Lv1) * (x / ps.n_m))))) *
      (x / ps.n_m / (ps.L1v + (1 - ps.L1v) * (x / ps.n_m)) *
        Real.exp (-((1 - ps.L1v) * (x / ps.n_m) /
          (ps.L1v + (1 - ps.L1v) * (x / ps.n_m))))) := by
  simp only [WVST.pressure]
  have hsplit : ∀ u w : ℝ, Real.exp (u - w) = Real.exp u * Real.exp (-w) :=
    fun u w => by rw [sub_eq_add_neg, Real.exp_add]
  rw [hsplit]
  ring

/-- WVST.pressure vanishes at zero loading. -/
theorem wvst_pressure_zero (ps : WVSTParams) : WVST.pressure ps 0 = 0 := by
  simp [WVST.pressure]

/-- WVST.pressure is strictly increasing on the physical coverage range for
positive capacity, affinity and Wilson parameters. -/
theorem wvst_pressure_strictMonoOn (ps : WVSTParams) (hnm : 0 < ps.n_m)
    (hK : 0 < ps.K) (hL1 : 0 < ps.L1v) (hL2 : 0 < ps.Lv1) :
    StrictMonoOn (WVST.pressure ps) (Set.Ico 0 ps.n_m) := by
  rintro u ⟨hu0, hu1⟩ v ⟨hv0, hv1⟩ huv
  rw [WVST.pressure_factored ps u, WVST.pressure_factored ps v]
  have h0 : 0 ≤ u / ps.n_m := div_nonneg hu0 hnm.le
  have h12 : u / ps.n_m < v / ps.n_m := by gcongr
  have h21 : v / ps.n_m < 1 := (div_lt_one hnm).mpr hv1
  have h11 : u / ps.n_m < 1 := lt_trans h12 h21
  have hf1 := wvst_f1_strict hL2 h0 h12 h21
  have hf2 := wvst_f2_strict hL1 h0 h12 h21
  have hC : (0 : ℝ) < ps.n_m / ps.K * ps.L1v :=
    mul_pos (div_pos hnm hK) hL1
  have hA1 : (0 : ℝ) < 1 - (1 - ps.Lv1) * (u / ps.n_m) := by nlinarith
  have hφ1 : (0 : ℝ) < 1 - u / ps.n_m := by linarith
  have hB1 : (0 : ℝ) < ps.L1v + (1 - ps.L1v) * (u / ps.n_m) := by nlinarith
  have hf1a : (0 : ℝ) ≤ (1 - (1 - ps.Lv1) * (u / ps.n_m)) / (1 - u / ps.n_m) *
      Real.exp (-(ps.Lv1 * ((1 - ps.Lv1) * (u / ps.n_m)) /
        (1 - (1 - ps.Lv1) * (u / ps.n_m)))) :=
    mul_nonneg (div_nonneg hA1.le hφ1.le) (Real.exp_pos _).le
  have hf2a : (0 : ℝ) ≤ u / ps.n_m /
      (ps.L1v + (1 - ps.L1v) * (u / ps.n_m)) *
      Real.exp (-((1 - ps.L1v) * (u / ps.n_m) /
        (ps.L1v + (1 - ps.L1v) * (u / ps.n_m)))) :=
    mul_nonneg (div_nonneg h0 hB1.le) (Real.exp_pos _).le
  have hprod := mul_lt_mul'' hf1 hf2 hf1a hf2a
  calc ps.n_m / ps.K * ps.L1v *
        ((1 - (1 - ps.Lv1) * (u / ps.n_m)) / (1 - u / ps.n_m) *
          Real.exp (-(ps.Lv1 * ((1 - ps.Lv1) * (u / ps.n_m)) /
            (1 - (1 - ps.Lv1) * (u / ps.n_m))))) *
        (u / ps.n_m / (ps.L1v + (1 - ps.L1v) * (u / ps.n_m)) *
          Real.exp (-((1 - ps.L1v) * (u / ps.n_m) /
            (ps.L1v + (1 - ps.L1v) * (u / ps.n_m)))))
      = ps.n_m / ps.K * ps.L1v *
        (((1 - (1 - ps.Lv1) * (u / ps.n_m)) / (1 - u / ps.n_m) *
          Real.exp (-(ps.Lv1 * ((1 - ps.Lv1) * (u / ps.n_m)) /
            (1 - (1 - ps.Lv1) * (u / ps.n_m))))) *
        (u / ps.n_m / (ps.L1v + (1 - ps.L1v) * (u / ps.n_m)) *
          Real.exp (-((1 - ps.L1v) * (u / ps.n_m) /
            (ps.L1v + (1 - ps.L1v) * (u / ps.n_m)))))) := by ring
    _ < ps.n_m / ps.K * ps.L1v *
        (((1 - (1 - ps.Lv1) * (v / ps.n_m)) / (1 - v / ps.n_m) *
          Real.exp (-(ps.Lv1 * ((1 - ps.Lv1) * (v / ps.n_m)) /
            (1 - (1 - ps.Lv1) * (v / ps.n_m))))) *
        (v / ps.n_m / (ps.L1v + (1 - ps.L1v) * (v / ps.n_m)) *
          Real.exp (-((1 - ps.L1v) * (v / ps.n_m) /
            (ps.L1v + (1 - ps.L1v) * (v / ps.n_m)))))) :=
        mul_lt_mul_of_pos_left hprod hC
    _ = ps.n_m / ps.K * ps.L1v *
        ((1 - (1 - ps.Lv1) * (v / ps.n_m)) / (1 - v / ps.n_m) *
          Real.exp (-(ps.Lv1 * ((1 - ps.Lv1) * (v / ps.n_m)) /
            (1 - (1 - ps.Lv1) * (v / ps.n_m))))) *
        (v / ps.n_m / (ps.L1v + (1 - ps.L1v) * (v / ps.n_m)) *
          Real.exp (-((1 - ps.L1v) * (v / ps.n_m) /
            (ps.L1v + (1 - ps.L1v) * (v / ps.n_m))))) := by ring

/-- A successful FHVST.loading call exposes the solver success flag and
iterate. -/
theorem fhvst_loading_ok {root : RootFinder} {ps : FHVSTParams} {p x : ℝ}
    (hok : FHVST.loading root ps p = .ok x) :
    (root (fun y => FHVST.pressure ps y - p) 0).success = true ∧
    (root (fun y => FHVST.pressure ps y - p) 0).x = x := by
  by_cases hs : (root (fun y => FHVST.pressure ps y - p) 0).success = true
  · refine ⟨hs, ?_⟩
    simp only [FHVST.loading, hs, if_true] at hok
    exact Except.ok.inj hok
  · simp only [FHVST.loading] at hok
    rw [if_neg hs] at hok
    simp at hok

/-- A successful WVST.loading call exposes the solver success flag and
iterate. -/
theorem wvst_loading_ok {root : RootFinder} {ps : WVSTParams} {p x : ℝ}
    (hok : WVST.loading root ps p = .ok x) :
    (root (fun y => WVST.pressure ps y - p) 0).success = true ∧
    (root (fun y => WVST.pressure ps y - p) 0).x = x := by
  by_cases hs : (root (fun y => WVST.pressure ps y - p) 0).success = true
  · refine ⟨hs, ?_⟩
    simp only [WVST.loading, hs, if_true] at hok
    exact Except.ok.inj hok
  · simp only [WVST.loading] at hok
    rw [if_neg hs] at hok
    simp at hok

/-- A successful TSToth.pressure call exposes the solver success flag and
iterate. -/
theorem TSToth.pressure_ok {root : RootFinder} {ps : TSTothParams} {n x : ℝ}
    (hok : TSToth.pressure root ps n = .ok x) :
    (root (fun y => TSToth.loading ps y - n) 0).success = true ∧
    (root (fun y => TSToth.loading ps y - n) 0).x = x := by
  by_cases hs : (root (fun y => TSToth.loading ps y - n) 0).success = true
  · refine ⟨hs, ?_⟩
    simp only [TSToth.pressure, hs, if_true] at hok
    exact Except.ok.inj hok
  · simp only [TSToth.pressure] at hok
    rw [if_neg hs] at hok
    simp at hok

/-- With an exact solver, a successful FHVST.loading value satisfies the
defining pressure equation. -/
theorem fhvst_loading_exact {root : RootFinder} {ps : FHVSTParams} {p x : ℝ}
    (hroot : ∀ (f : ℝ → ℝ) (x0 : ℝ), (root f x0).success = true →
      f (root f x0).x = 0)
    (hok : FHVST.loading root ps p = .ok x) : FHVST.pressure ps x = p := by
  obtain ⟨hs, hx⟩ := fhvst_loading_ok hok
  have h := hroot (fun y => FHVST.pressure ps y - p) 0 hs
  rw [hx] at h
  exact sub_eq_zero.mp h

/-- With an exact solver, a successful WVST.loading value satisfies the
defining pressure equation. -/
theorem wvst_loading_exact {root : RootFinder} {ps : WVSTParams} {p x : ℝ}
    (hroot : ∀ (f : ℝ → ℝ) (x0 : ℝ), (root f x0).success = true →
      f (root f x0).x = 0)
    (hok : WVST.loading root ps p = .ok x) : WVST.pressure ps x = p := by
  obtain ⟨hs, hx⟩ := wvst_loading_ok hok
  have h := hroot (fun y => WVST.pressure ps y - p) 0 hs
  rw [hx] at h
  exact sub_eq_zero.mp h

/-- With an exact solver, a successful TSToth.pressure value satisfies the
defining loading equation. -/
theorem TSToth.pressure_exact {root : RootFinder} {ps : TSTothParams}
    {n x : ℝ}
    (hroot : ∀ (f : ℝ → ℝ) (x0 : ℝ), (root f x0).success = true →
      f (root f x0).x = 0)
    (hok : TSToth.pressure root ps n = .ok x) : TSToth.loading ps x = n := by
  obtain ⟨hs, hx⟩ := TSToth.pressure_ok hok
  have h := hroot (fun y => TSToth.loading ps y - n) 0 hs
  rw [hx] at h
  exact sub_eq_zero.mp h

/-- The exact-root finder fulfils the exact solver contract. -/
theorem exactRoot_exact : ∀ (f : ℝ → ℝ) (x0 : ℝ),
    (exactRoot f x0).success = true → f (exactRoot f x0).x = 0 := by
  intro f x0 h
  simp only [exactRoot] at h ⊢
  exact of_decide_eq_true h

/-- The exact-root finder fulfils the unit residual tolerance contract. -/
theorem exactRoot_tol : ∀ (f : ℝ → ℝ) (x0 : ℝ),
    (exactRoot f x0).success = true → |f (exactRoot f x0).x| ≤ 1 := by
  intro f x0 h
  rw [exactRoot_exact f x0 h]
  norm_num

/-- The exact-root finder inverts FHVST.pressure at the origin. -/
theorem fhvst_loading_zero (ps : FHVSTParams) :
    FHVST.loading exactRoot ps 0 = .ok 0 := by
  have hz : FHVST.pressure ps 0 - 0 = 0 := by
    rw [fhvst_pressure_zero]; ring
  simp [FHVST.loading, exactRoot, hz]

/-- The exact-root finder inverts WVST.pressure at the origin. -/
theorem wvst_loading_zero (ps : WVSTParams) :
    WVST.loading exactRoot ps 0 = .ok 0 := by
  have hz : WVST.pressure ps 0 - 0 = 0 := by
    rw [wvst_pressure_zero]; ring
  simp [WVST.loading, exactRoot, hz]

/-- The exact-root finder inverts TSToth.loading at the origin. -/
theorem TSToth.pressure_exact_zero (ps : TSTothParams) :
    TSToth.pressure exactRoot ps 0 = .ok 0 := by
  have hz : TSToth.loading ps 0 - 0 = 0 := by
    rw [TSToth.loading_zero]; ring
  simp [TSToth.pressure, exactRoot, hz]

/-- Claim C6: loading as a function of pressure is monotonically
non-decreasing for every variant at fixed physically valid parameters: for
TSToth directly through the closed form on its nonnegative bound region, and
for FHVST and WVST through the numeric inverse, whose values, whenever the
root finder solves the defining equation exactly and returns coverages in the
physical range, are ordered as the requested pressures. -/
theorem claim_C6 :
    (∀ (ps : TSTothParams) (p q : ℝ),
      0 ≤ ps.n_m1 → 0 ≤ ps.K1 → 0 < ps.t1 →
      0 ≤ ps.n_m2 → 0 ≤ ps.K2 → 0 < ps.t2 →
      0 ≤ ps.n_m3 → 0 ≤ ps.K3 → 0 < ps.t3 →
      0 ≤ p → p ≤ q → TSToth.loading ps p ≤ TSToth.loading ps q) ∧
    (∀ (ps : FHVSTParams) (root : RootFinder) (p1 p2 x1 x2 : ℝ),
      0 < ps.n_m → 0 < ps.K → -1 < ps.a1v →
      (∀ (f : ℝ → ℝ) (x0 : ℝ), (root f x0).success = true →
        f (root f x0).x = 0) →
      FHVST.loading root ps p1 = .ok x1 →
      FHVST.loading root ps p2 = .ok x2 →
      0 ≤ x1 → x1 < ps.n_m → 0 ≤ x2 → x2 < ps.n_m →
      p1 ≤ p2 → x1 ≤ x2) ∧
    (∀ (ps : WVSTParams) (root : RootFinder) (p1 p2 x1 x2 : ℝ),
      0 < ps.n_m → 0 < ps.K → 0 < ps.L1v → 0 < ps.Lv1 →
      (∀ (f : ℝ → ℝ) (x0 : ℝ), (root f x0).success = true →
        f (root f x0).x = 0) →
      WVST.loading root ps p1 = .ok x1 →
      WVST.loading root ps p2 = .ok x2 →
      0 ≤ x1 → x1 < ps.n_m → 0 ≤ x2 → x2 < ps.n_m →
      p1 ≤ p2 → x1 ≤ x2) := by
  refine ⟨fun ps p q h1 h2 h3 h4 h5 h6 h7 h8 h9 hp hpq =>
      TSToth.loading_le ps p q h1 h2 h3 h4 h5 h6 h7 h8 h9 hp hpq,
    ?_, ?_⟩
  · intro ps root p1 p2 x1 x2 hnm hK ha hroot hok1 hok2 hx1a hx1b hx2a
      hx2b hp12
    have e1 := fhvst_loading_exact hroot hok1
    have e2 := fhvst_loading_exact hroot hok2
    by_contra hcon
    push_neg at hcon
    have hlt := fhvst_pressure_strictMonoOn ps hnm hK ha ⟨hx2a, hx2b⟩
      ⟨hx1a, hx1b⟩ hcon
    rw [e1, e2] at hlt
    linarith
  · intro ps root p1 p2 x1 x2 hnm hK hL1 hL2 hroot hok1 hok2 hx1a hx1b
      hx2a hx2b hp12
    have e1 := wvst_loading_exact hroot hok1
    have e2 := wvst_loading_exact hroot hok2
    by_contra hcon
    push_neg at hcon
    have hlt := wvst_pressure_strictMonoOn ps hnm hK hL1 hL2 ⟨hx2a, hx2b⟩
      ⟨hx1a, hx1b⟩ hcon
    rw [e1, e2] at hlt
    linarith

/-- Witness for C6: concrete instances of each conjunct. -/
theorem claim_C6_witness :
    TSToth.loading ⟨1, 1, 1, 1, 1, 1, 1, 1, 1⟩ 1 ≤
      TSToth.loading ⟨1, 1, 1, 1, 1, 1, 1, 1, 1⟩ 2 ∧
    (0 : ℝ) ≤ 0 ∧ (0 : ℝ) ≤ 0 :=
  ⟨claim_C6.1 ⟨1, 1, 1, 1, 1, 1, 1, 1, 1⟩ 1 2 (by norm_num) (by norm_num)
      (by norm_num) (by norm_num) (by norm_num) (by norm_num) (by norm_num)
      (by norm_num) (by norm_num) (by norm_num) (by norm_num),
    claim_C6.2.1 ⟨1, 1, 0⟩ exactRoot 0 0 0 0 (by norm_num) (by norm_num)
      (by norm_num) exactRoot_exact (fhvst_loading_zero _)
      (fhvst_loading_zero _) le_rfl (by norm_num) le_rfl (by norm_num)
      le_rfl,
    claim_C6.2.2 ⟨1, 1, 1, 1⟩ exactRoot 0 0 0 0 (by norm_num) (by norm_num)
      (by norm_num) (by norm_num) exactRoot_exact (wvst_loading_zero _)
      (wvst_loading_zero _) le_rfl (by norm_num) le_rfl (by norm_num)
      le_rfl⟩

/-- Claim C5: the numerically-inverted operation of each variant round-trips
against its closed form within the solver tolerance: a successful inversion
satisfies the defining equation up to the residual bound the solver
guarantees, and with an exact solver the composition returns the original
value on the physical range (injectivity coming from strict monotonicity of
the closed form). -/
theorem claim_C5 :
    (∀ (tol : ℝ) (root : RootFinder) (ps : TSTothParams) (n x : ℝ),
      (∀ (f : ℝ → ℝ) (x0 : ℝ), (root f x0).success = true →
        |f (root f x0).x| ≤ tol) →
      TSToth.pressure root ps n = .ok x →
      |TSToth.loading ps x - n| ≤ tol) ∧
    (∀ (tol : ℝ) (root : RootFinder) (ps : FHVSTParams) (p x : ℝ),
      (∀ (f : ℝ → ℝ) (x0 : ℝ), (root f x0).success = true →
        |f (root f x0).x| ≤ tol) →
      FHVST.loading root ps p = .ok x →
      |FHVST.pressure ps x - p| ≤ tol) ∧
    (∀ (tol : ℝ) (root : RootFinder) (ps : WVSTParams) (p x : ℝ),
      (∀ (f : ℝ → ℝ) (x0 : ℝ), (root f x0).success = true →
        |f (root f x0).x| ≤ tol) →
      WVST.loading root ps p = .ok x →
      |WVST.pressure ps x - p| ≤ tol) ∧
    (∀ (root : RootFinder) (ps : TSTothParams) (p x : ℝ),
      0 < ps.n_m1 → 0 < ps.K1 → 0 < ps.t1 →
      0 ≤ ps.n_m2 → 0 ≤ ps.K2 → 0 < ps.t2 →
      0 ≤ ps.n_m3 → 0 ≤ ps.K3 → 0 < ps.t3 →
      (∀ (f : ℝ → ℝ) (x0 : ℝ), (root f x0).success = true →
        f (root f x0).x = 0) →
      TSToth.pressure root ps (TSToth.loading ps p) = .ok x →
      0 ≤ p → 0 ≤ x → x = p) ∧
    (∀ (root : RootFinder) (ps : FHVSTParams) (n x : ℝ),
      0 < ps.n_m → 0 < ps.K → -1 < ps.a1v →
      (∀ (f : ℝ → ℝ) (x0 : ℝ), (root f x0).success = true →
        f (root f x0).x = 0) →
      FHVST.loading root ps (FHVST.pressure ps n) = .ok x →
      0 ≤ n → n < ps.n_m → 0 ≤ x → x < ps.n_m → x = n) ∧
    (∀ (root : RootFinder) (ps : WVSTParams) (n x : ℝ),
      0 < ps.n_m → 0 < ps.K → 0 < ps.L1v → 0 < ps.Lv1 →
      (∀ (f : ℝ → ℝ) (x0 : ℝ), (root f x0).success = true →
        f (root f x0).x = 0) →
      WVST.loading root ps (WVST.pressure ps n) = .ok x →
      0 ≤ n → n < ps.n_m → 0 ≤ x → x < ps.n_m → x = n) := by
  refine ⟨?_, ?_, ?_, ?_, ?_, ?_⟩
  · intro tol root ps n x htol hok
    obtain ⟨hs, hx⟩ := TSToth.pressure_ok hok
    have h := htol (fun y => TSToth.loading ps y - n) 0 hs
    rw [hx] at h
    simpa using h
  · intro tol root ps p x htol hok
    obtain ⟨hs, hx⟩ := fhvst_loading_ok hok
    have h := htol (fun y => FHVST.pressure ps y - p) 0 hs
    rw [hx] at h
    simpa using h
  · intro tol root ps p x htol hok
    obtain ⟨hs, hx⟩ := wvst_loading_ok hok
    have h := htol (fun y => WVST.pressure ps y - p) 0 hs
    rw [hx] at h
    simpa using h
  · intro root ps p x h1 h2 h3 h4 h5 h6 h7 h8 h9 hroot hok hp hx
    have heq := TSToth.pressure_exact hroot hok
    exact (TSToth.loading_strictMonoOn ps h1 h2 h3 h4 h5 h6 h7 h8 h9).injOn
      (Set.mem_Ici.mpr hx) (Set.mem_Ici.mpr hp) heq
  · intro root ps n x hnm hK ha hroot hok hn1 hn2 hx1 hx2
    have heq := fhvst_loading_exact hroot hok
    exact (fhvst_pressure_strictMonoOn ps hnm hK ha).injOn ⟨hx1, hx2⟩
      ⟨hn1, hn2⟩ heq
  · intro root ps n x hnm hK hL1 hL2 hroot hok hn1 hn2 hx1 hx2
    have heq := wvst_loading_exact hroot hok
    exact (wvst_pressure_strictMonoOn ps hnm hK hL1 hL2).injOn ⟨hx1, hx2⟩
      ⟨hn1, hn2⟩ heq

/-- Witness for C5: concrete instances of the residual-bound conjunct and of
an exact round trip. -/
theorem claim_C5_witness :
    |TSToth.loading ⟨1, 1, 1, 1, 1, 1, 1, 1, 1⟩ 0 - 0| ≤ 1 ∧ (0 : ℝ) = 0 :=
  ⟨claim_C5.1 1 exactRoot ⟨1, 1, 1, 1, 1, 1, 1, 1, 1⟩ 0 0 exactRoot_tol
      (TSToth.pressure_exact_zero _),
    claim_C5.2.2.2.2.1 exactRoot ⟨1, 1, 0⟩ 0 0 (by norm_num) (by norm_num)
      (by norm_num) exactRoot_exact
      (by rw [fhvst_pressure_zero]; exact fhvst_loading_zero _)
      le_rfl (by norm_num) le_rfl (by norm_num)⟩

end PyGAPS
